import Mathlib

/-!
Verification of the civitai-scraping repository.

This file shallowly embeds the crawl/reconcile/resolve core of the
repository and proves/refutes the frozen claims about it.

Embedded source functions (Python → Lean):
* `safely_fetch_go` / `safely_fetch_api_data_model` / `safely_fetch_api_data_draft`
  — `CivitaiAPIWrapper.safely_fetch_api_data` in `src/model/civitai_api_wrapper.py`
  (retry sleep `wait*2`) and in `src/civitai_api_wrapper.py` (retry sleep `wait`).
* `normalize_next_page_url`, `collect_assets_via_api`,
  `scrape_available_asset_metadata` — the cursor crawler in both wrapper files
  (the two drafts are line-for-line identical here apart from logging guards).
* `scrape_callback_items` — the per-item callback in
  `MetadataScraper.scrape_to_database` (`scrape_full_metadata.py`).
* `graft_model_versions`, `post_or_patch_model_entry` —
  `MetadataScraper.post_or_patch_model_entry` (`scrape_full_metadata.py`).
* `download_image_for_model_file`, `download_data_for_model_file` —
  the corresponding functions in `src/civitai_api_wrapper.py`
  (`src/enrich_model_folder.py` duplicates the same logic).

Python dictionaries holding remote records are modelled by structures whose
optional fields are `Option`s (a missing key reads as `none`); a lookup of a
missing key is an explicit `PyErr.keyError`.  Exceptions are modelled with
`Except PyErr`.  Machine resources that the claims quantify over (the HTTP
transport, the filesystem state after a download attempt, network
connectivity) are passed in as explicit functions.
-/

/-- Python exception kinds that the embedded code can raise. -/
inductive PyErr where
  | keyError
  | fileNotFound
  | unboundLocal
deriving DecidableEq

/-- A catalog item as delivered in a page's `items` array.  The only field the
embedded code reads is `entry["id"]`; a malformed item is one where the key is
missing (`id? = none`). -/
structure Entry where
  id? : Option Nat
deriving DecidableEq

/-- The `metadata` sub-document of a list response: the embedded code reads
only `metadata.get("nextPage")`. -/
structure PageMeta where
  nextPage : Option String
deriving DecidableEq

/-- A decoded response document.  `metadata` and `items` are `Option`s because
the crawler accesses both with `data["metadata"]` / `data["items"]`, which
raise `KeyError` when the key is absent — in particular on the empty dict that
`safely_fetch_api_data` returns after exhausting its retries. -/
structure Doc where
  metadata : Option PageMeta
  items : Option (List Entry)
deriving DecidableEq

/-- The empty Python dict `{}` viewed as a document: no keys at all. -/
def Doc.empty : Doc := ⟨none, none⟩

/-- What `safely_fetch_api_data` hands to its caller: a dict (`isinstance(data,
dict)` true) or Python `None` (the fall-through return on a decoded-but-errored
body). -/
inductive FetchResult where
  | doc (d : Doc)
  | pyNone
deriving DecidableEq

/-- One raw HTTP response body, as seen by `json.loads`: undecodable, JSON
`null`, a decoded dict containing an `"error"` key, or a good document. -/
inductive Body where
  | undecodable
  | nullDoc
  | errDoc
  | okDoc (d : Doc)
deriving DecidableEq

/-- Observable outcome of one `safely_fetch_api_data` call: how many GETs were
issued, the sleeps performed between attempts (in the same time unit as the
configured wait), and the returned value. -/
structure FetchOutcome where
  attempts : Nat
  sleeps : List Nat
  result : FetchResult
deriving DecidableEq

/-- Core of `CivitaiAPIWrapper.safely_fetch_api_data`, shared by the two
drafts, which differ only in the sleep taken before a retry (`retrySleep`).
`transport n` is the body returned by the GET issued with `current_try = n`.
The Python recursion re-enters itself only while `current_try < max_tries`, so
the extra `fuel` argument (always called with `fuel = maxTries`) is only a
structural-termination device and is never exhausted on the paths the claims
quantify over.  A `nullDoc`/`errDoc` body logs a warning and falls through the
Python function body, returning `None`. -/
def safely_fetch_go (retrySleep : Nat) (transport : Nat → Body) :
    Nat → Nat → Nat → FetchOutcome
  | fuel, currentTry, maxTries =>
    match transport currentTry with
    | .okDoc d => ⟨1, [], .doc d⟩
    | .nullDoc => ⟨1, [], .pyNone⟩
    | .errDoc => ⟨1, [], .pyNone⟩
    | .undecodable =>
      if currentTry < maxTries then
        match fuel with
        | 0 => ⟨1, [], .pyNone⟩
        | fuel + 1 =>
          let r := safely_fetch_go retrySleep transport fuel (currentTry + 1) maxTries
          ⟨r.attempts + 1, retrySleep :: r.sleeps, r.result⟩
      else ⟨1, [], .doc Doc.empty⟩

/-- `safely_fetch_api_data` of `src/model/civitai_api_wrapper.py`: the retry
sleep is `sleep(self.wait*2)`. -/
def safely_fetch_api_data_model (wait : Nat) (transport : Nat → Body)
    (currentTry maxTries : Nat) : FetchOutcome :=
  safely_fetch_go (2 * wait) transport maxTries currentTry maxTries

/-- `safely_fetch_api_data` of `src/civitai_api_wrapper.py` (the duplicated
draft): the retry sleep is `sleep(self.wait)`. -/
def safely_fetch_api_data_draft (wait : Nat) (transport : Nat → Body)
    (currentTry maxTries : Nat) : FetchOutcome :=
  safely_fetch_go wait transport maxTries currentTry maxTries

/-- Cursor normalization performed by `collect_assets_via_api` on an extracted
`nextPage` value: append `&limit=100` when the substring `limit=` is absent,
then append `&nsfw=true` when the substring `nsfw=` is absent from the
(possibly already extended) URL.  Python's `in` on strings is substring
containment, i.e. `List.IsInfix` on the character lists. -/
def normalize_next_page_url (u : String) : String :=
  let u1 := if "limit=".data <:+: u.data then u else u ++ "&limit=100"
  if "nsfw=".data <:+: u1.data then u1 else u1 ++ "&nsfw=true"

/-- Result of one crawl: the batches handed to the callback (one list per
fetched page, in page order) and whether the `while next_url` loop genuinely
exited (`ended = true`) as opposed to the model running out of fuel. -/
structure CrawlOut where
  batches : List (List Entry)
  ended : Bool
deriving DecidableEq

/-- `CivitaiAPIWrapper.collect_assets_via_api`, with the fetcher abstracted as
`fetch : String → FetchResult` (its per-URL result; retries already happened
inside `safely_fetch_api_data`).  Mirrors the Python loop: a non-dict result
is logged and the loop ends; on a dict, `data["metadata"]` and `data["items"]`
are `KeyError` lookups; an extracted truthy `nextPage` is normalized before
the next fetch; an absent (or empty-string, i.e. falsy) cursor ends the loop
after the callback ran.  The rate-limit `sleep(self.wait)` before each fetch
has no observable effect on the claims and is not recorded.  `fuel` bounds the
number of loop iterations the model can take; a genuine exit reports
`ended = true`. -/
def collect_assets_via_api (fetch : String → FetchResult) :
    Nat → String → Except PyErr CrawlOut
  | 0, _ => .ok ⟨[], false⟩
  | fuel + 1, url =>
    match fetch url with
    | .pyNone => .ok ⟨[], true⟩
    | .doc d =>
      match d.metadata with
      | none => .error .keyError
      | some m =>
        match d.items with
        | none => .error .keyError
        | some items =>
          match m.nextPage with
          | none => .ok ⟨[items], true⟩
          | some np =>
            if np = "" then .ok ⟨[items], true⟩
            else
              match collect_assets_via_api fetch fuel (normalize_next_page_url np) with
              | .error e => .error e
              | .ok out => .ok ⟨items :: out.batches, out.ended⟩

/-- The asset types accepted by the crawler entry points. -/
inductive AssetType where
  | models
  | images
deriving DecidableEq

/-- Default first-page URL per asset type (`collect_assets_via_api`). -/
def default_list_url : AssetType → String
  | .models => "https://civitai.com/api/v1/models?sort=Newest&nsfw=true&limit=100"
  | .images => "https://civitai.com/api/v1/images?sort=Newest&nsfw=true&limit=100"

/-- `CivitaiAPIWrapper.scrape_available_asset_metadata`.  When no callback is
supplied the method installs an internal callback that extends a `result` list
with every batch (each batch is a list, so `result` ends up being the
concatenation of the batches in page order) and returns `result`; when a
callback is supplied, `result` is never touched and the empty list is
returned.  `callbackGiven` records which of the two cases applies. -/
def scrape_available_asset_metadata (fetch : String → FetchResult)
    (assetType : AssetType) (callbackGiven : Bool) (startUrl : Option String)
    (fuel : Nat) : Except PyErr (List Entry) :=
  match collect_assets_via_api fetch fuel (startUrl.getD (default_list_url assetType)) with
  | .error e => .error e
  | .ok out => .ok (if callbackGiven then [] else out.batches.flatten)

/-- A model-version sub-object inside a Model payload's `modelVersions` array.
The merge logic reads only its `id`; `body` stands for all other fields. -/
structure MV where
  id : Nat
  body : Nat
deriving DecidableEq

/-- A Model payload (`entry` / stored `data`): `top` stands for all top-level
fields other than `modelVersions`. -/
structure ModelData where
  top : Nat
  modelVersions : List MV
deriving DecidableEq

/-- The version ids of a version list, in order. -/
def mv_ids (l : List MV) : List Nat := l.map MV.id

/-- The version ids of a Model payload's `modelVersions`. -/
def versionIds (d : ModelData) : List Nat := mv_ids d.modelVersions

/-- A stored row of the `model` table (`src/database/data_model.py`): surrogate
key, unique `url`, `source`, JSON `data` payload and lifecycle `state`. -/
structure StoreRec where
  rid : Nat
  url : String
  source : String
  data : ModelData
  state : String
deriving DecidableEq

/-- The version-grafting loop of `post_or_patch_model_entry`: walk the stored
record's `modelVersions` and, for each one whose `id` does not occur in the
incoming entry's (growing) version list, append a (deep copy of the) stored
version to the incoming list; the flag records whether any graft happened.
First argument: stored versions; second: the incoming entry's versions. -/
def graft_model_versions : List MV → List MV → List MV × Bool
  | [], entry => (entry, false)
  | mv :: rest, entry =>
    if entry.any (fun u => u.id == mv.id) then graft_model_versions rest entry
    else ((graft_model_versions rest (entry ++ [mv])).1, true)

/-- `database.patch_object("model", rid, data=d)`: replace the payload of every
row whose surrogate key equals `rid`. -/
def patch_store (db : List StoreRec) (rid : Nat) (d : ModelData) : List StoreRec :=
  db.map (fun r => if r.rid == rid then { r with data := d } else r)

/-- A surrogate key unused by any current row (the store assigns UUIDs; the
model only needs freshness). -/
def fresh_id (db : List StoreRec) : Nat := (db.map StoreRec.rid).foldr max 0 + 1

/-- `database.post_object("model", url=url, source="civitai.com", data=entry,
state="full")`. -/
def post_store (db : List StoreRec) (url : String) (entry : ModelData) : List StoreRec :=
  db ++ [⟨fresh_id db, url, "civitai.com", entry, "full"⟩]

/-- Observable outcome of one reconciliation: the new store contents plus how
many patch and post writes were issued. -/
structure ReconcileOut where
  store : List StoreRec
  patches : Nat
  posts : Nat
deriving DecidableEq

/-- `MetadataScraper.post_or_patch_model_entry`: look the `url` up; if a row
exists, graft stored-only versions into the incoming entry and patch the row
with the (augmented) incoming entry only when at least one version was
grafted; otherwise insert a new row with the incoming entry as payload. -/
def post_or_patch_model_entry (db : List StoreRec) (url : String)
    (entry : ModelData) : ReconcileOut :=
  match db.filter (fun r => r.url == url) with
  | [] => ⟨post_store db url entry, 0, 1⟩
  | obj0 :: _ =>
    let g := graft_model_versions obj0.data.modelVersions entry.modelVersions
    if g.2 then ⟨patch_store db obj0.rid { entry with modelVersions := g.1 }, 1, 0⟩
    else ⟨db, 0, 0⟩

/-- The stored payload at a `url`: the payload of the first row matching the
filter mask `url == url`, as `get_objects_by_filtermasks` returns it. -/
def stored_data (db : List StoreRec) (url : String) : Option ModelData :=
  ((db.filter (fun r => r.url == url)).head?).map StoreRec.data

/-- The stored version-id set (as a list) at a `url`; empty when no row
matches. -/
def stored_ids (db : List StoreRec) (url : String) : List Nat :=
  match stored_data db url with
  | none => []
  | some d => versionIds d

/-- A sequence of merges of incoming entries against the same `url`. -/
def merge_many (db : List StoreRec) (url : String) (es : List ModelData) : List StoreRec :=
  es.foldl (fun s e => (post_or_patch_model_entry s url e).store) db

/-- The per-item loop of the crawl callback in
`MetadataScraper.scrape_to_database`: for each entry, build the URL from
`entry["id"]` and reconcile it, catching any exception and logging a warning —
but the warning text itself evaluates `entry['id']`, so for an item missing
`id` the `KeyError` raised in the handler escapes and aborts the whole batch.
`patch` abstracts the reconciliation (store) call; the returned list holds the
ids whose reconciliation failed and was logged. -/
def scrape_callback_items (patch : Entry → Except String Unit) :
    List Entry → Except PyErr (List Nat)
  | [] => .ok []
  | e :: rest =>
    match e.id? with
    | none => .error .keyError
    | some i =>
      match patch e with
      | .ok _ => scrape_callback_items patch rest
      | .error _ =>
        match scrape_callback_items patch rest with
        | .ok warned => .ok (i :: warned)
        | .error er => .error er

/-- Module-level allow-lists of `src/civitai_api_wrapper.py`. -/
def MODEL_EXTENSIONS : List String := [".safetensors", ".ckpt", ".pt", ".zip", ".pth"]

/-- Descending width ladder for image download retries. -/
def IMG_WIDTHS : List Nat := [1080, 720, 576, 480]

/-- Allowed preview-image extensions. -/
def IMG_EXTS : List String := [".jpeg", ".jpg", ".png"]

/-- One image object in a version-metadata record: `type?` models
`img.get("type", "image")`, `url` the image URL and `width` its native width. -/
structure ImgData where
  type? : Option String
  url : String
  width : Nat
deriving DecidableEq

/-- A version-metadata record as consumed by the image downloader: only its
`images` key matters (`model_version_metadata.get("images", False)`). -/
structure MVMeta where
  images? : Option (List ImgData)
deriving DecidableEq

/-- Health-relevant state of the target image file: whether it exists on disk
and whether it passes `image_utility.check_image_health` (exists, non-zero
size, decodable). -/
structure FileSt where
  ex : Bool
  healthy : Bool
deriving DecidableEq

/-- The characters of the last `/`-separated segment of a URL.  The Python
code first removes occurrences of `https://image.civitai.com/` (a string that
ends in `/`); since the removed text contains `/` it can never lie inside the
final segment, so the final segment — the only part the extension is derived
from — is unaffected by that removal and is modelled directly. -/
def last_url_part (u : String) : List Char :=
  u.data.foldl (fun acc c => if c = '/' then [] else acc ++ [c]) []

/-- `os.path.splitext(...)[1]`: the suffix of `name` starting at its last dot,
except that a name whose characters before that dot are all dots (a leading-dot
file such as `.bashrc`) has no extension. -/
def splitext_ext (name : List Char) : List Char :=
  match name.reverse.findIdx? (fun c => c = '.') with
  | none => []
  | some r =>
    let idx := name.length - 1 - r
    if (name.take idx).all (fun c => c = '.') then [] else name.drop idx

/-- The width substituted into the image URL on download attempt `tries`:
native resolution on attempt 0, `IMG_WIDTHS[tries - 1]` afterwards. -/
def width_arg (tries : Nat) : Option Nat :=
  if tries = 0 then none else IMG_WIDTHS[tries - 1]?

/-- The retry loop of `download_image_for_model_file`:
`while not check_image_health(image_path) and tries <= len(IMG_WIDTHS)`.
`effect k` is the file state produced by download attempt `k`
(`download_asset` returns `None`, so the Python `if not ...` guard always
fires); the connectivity-wait loop is modelled under the claims' hypothesis
that the probe reports the network up, so it performs zero iterations and
`tries` advances after every attempt.  Returns the final file state, the
number of download attempts, and the width argument of each attempt.  `fuel`
is a structural bound; the loop guard `tries ≤ len(IMG_WIDTHS)` caps the
iterations at `IMG_WIDTHS.length + 1`, so the call site's fuel is never
exhausted. -/
def download_loop (effect : Nat → FileSt) : Nat → Nat → FileSt → FileSt × Nat × List (Option Nat)
  | 0, _, s => (s, 0, [])
  | fuel + 1, tries, s =>
    if s.healthy = false ∧ tries ≤ IMG_WIDTHS.length then
      let r := download_loop effect fuel (tries + 1) (effect tries)
      (r.1, r.2.1 + 1, width_arg tries :: r.2.2)
    else (s, 0, [])

/-- Result of `download_image_for_model_file`: the written image path (split
into directory, file name, extension), Python `None`, or an escaped
exception. -/
inductive DlOutcome where
  | path (dir fname ext : String)
  | absent
  | raised (e : PyErr)
deriving DecidableEq

/-- Observable run of `download_image_for_model_file`: outcome, number of
download attempts, and the width argument of each attempt. -/
structure DlRun where
  outcome : DlOutcome
  attempts : Nat
  widths : List (Option Nat)
deriving DecidableEq

/-- `CivitaiAPIWrapper.download_image_for_model_file`: pick the first
non-video image; derive the target extension from its URL; when the extension
is unsupported AND a logger is configured, only the warning branch runs and
the final `return image_path` raises `UnboundLocalError` (with no logger the
guard `... and self.logger` is false and the download proceeds anyway); else
run the retry ladder and return the path when a file exists at it, `None`
otherwise. -/
def download_image_for_model_file (hasLogger : Bool) (effect : Nat → FileSt)
    (s0 : FileSt) (mvm : MVMeta) (directory file_name : String) : DlRun :=
  match mvm.images? with
  | none => ⟨.absent, 0, []⟩
  | some imgs =>
    if imgs.isEmpty then ⟨.absent, 0, []⟩
    else
      match imgs.filter (fun i => (i.type?.getD "image") ≠ "video") with
      | [] => ⟨.absent, 0, []⟩
      | img :: _ =>
        let ext := String.mk (splitext_ext (last_url_part img.url))
        if ext ∉ IMG_EXTS ∧ hasLogger then ⟨.raised .unboundLocal, 0, []⟩
        else
          let r := download_loop effect (IMG_WIDTHS.length + 2) 0 s0
          ⟨if r.1.ex then .path directory file_name ext else .absent, r.2.1, r.2.2⟩

/-- ASCII lower-casing of one character (what Python's `str.lower()` does on
the ASCII extension strings compared against `MODEL_EXTENSIONS`). -/
def ascii_lower (c : Char) : Char :=
  if 'A' ≤ c ∧ c ≤ 'Z' then Char.ofNat (c.toNat + 32) else c

/-- `str.lower()` on an (ASCII) extension string. -/
def str_lower (s : String) : String := String.mk (s.data.map ascii_lower)

/-- A truthy version-metadata document as returned by the by-hash endpoint or
read from the `_model_version.json` sidecar: only `modelId` (used for the
parent-model fetch) and the declared file `name`s (used by the optional
filename check) are read by the resolver. -/
structure MVMRec where
  modelId : Nat
  files : List String
deriving DecidableEq

/-- A truthy model-metadata document (opaque to the resolver). -/
structure MRec where
  body : Nat
deriving DecidableEq

/-- The filesystem surroundings of one model file: whether the path is a file,
and the current contents of the three sidecar files (`none` = missing). -/
structure SideFS where
  isFile : Bool
  hashSidecar : Option String
  mvmSidecar : Option MVMRec
  modelSidecar : Option MRec
deriving DecidableEq

/-- `CivitaiAPIWrapper.download_data_for_model_file`.
`fileExt` is the model file's extension, `sha` the SHA-256 of its contents
(computed only on a hash-sidecar miss), `byHash` what
`safely_fetch_api_data` returns for the by-hash endpoint (`none` models the
falsy `{}`/`None` failure values), `fetchModel` likewise for the parent-model
endpoint, and `imageResult` the value returned by the
`download_image_for_model_file` call.  Sidecar writes (including the
filename-check gate, which only decides whether the fetched version metadata
is persisted) have no effect on the returned tuple and are not tracked.
Mirrors the Python control flow exactly:
* missing path or disallowed extension → `(None, None, None, None)`;
* hash: sidecar read when present, else computed;
* version metadata: sidecar read when present, else fetched;
* model metadata: fetched only when its sidecar is missing AND the version
  metadata is truthy; in every other case the `else` branch loads the sidecar
  — which raises `FileNotFoundError` when the sidecar is missing (version
  metadata falsy);
* `image_path` is assigned only under `save_cover_image and
  model_version_metadata`, so every path that skips that branch raises
  `UnboundLocalError` at the final `return`. -/
def download_data_for_model_file (fs : SideFS) (fileExt : String) (sha : String)
    (byHash : Option MVMRec) (fetchModel : Option MRec) (imageResult : Option String)
    (saveCoverImage : Bool) :
    Except PyErr (Option String × Option MVMRec × Option MRec × Option String) :=
  if fs.isFile = false then .ok (none, none, none, none)
  else if (str_lower fileExt ∈ MODEL_EXTENSIONS) = false then .ok (none, none, none, none)
  else
    let hash : String :=
      match fs.hashSidecar with
      | none => sha
      | some h => h
    let mvm? : Option MVMRec :=
      match fs.mvmSidecar with
      | none => byHash
      | some m => some m
    let mRes : Except PyErr (Option MRec) :=
      match fs.modelSidecar, mvm? with
      | none, some _ => .ok fetchModel
      | none, none => .error .fileNotFound
      | some m, _ => .ok (some m)
    match mRes with
    | .error e => .error e
    | .ok m? =>
      match saveCoverImage, mvm? with
      | true, some _ => .ok (some hash, mvm?, m?, imageResult)
      | _, _ => .error .unboundLocal

/-- A distinct cursor URL for page `k` of a synthetic catalog: `k` repetitions
of `p` followed by a query string that already contains both `limit=` and
`nsfw=`, so that `normalize_next_page_url` leaves it unchanged and distinct
pages have distinct URLs (their lengths differ). -/
def cursor_name (k : Nat) : String :=
  String.mk (List.replicate k 'p' ++ "?limit=100&nsfw=true".data)

/-- A fetcher serving the synthetic catalog `pages`: the URL for page `k`
returns a well-formed document whose `items` are `pages[k]` and whose
`nextPage` cursor points at page `k + 1` while more pages remain; every other
URL yields a non-document.  The page index is recovered from the URL length
(`cursor_name k` has length `k + 20`). -/
def page_fetch (pages : List (List Entry)) (u : String) : FetchResult :=
  if u = cursor_name (u.data.length - 20) ∧ u.data.length - 20 < pages.length then
    .doc ⟨some ⟨if u.data.length - 20 + 1 < pages.length
                then some (cursor_name (u.data.length - 20 + 1)) else none⟩,
          some (pages.getD (u.data.length - 20) [])⟩
  else .pyNone

/-- Concrete store for the claim-C1 counterexample: one Model row at url `u`
whose payload carries the single version id 1. -/
def db_c1 : List StoreRec := [⟨0, "u", "civitai.com", ⟨0, [⟨1, 0⟩]⟩, "full"⟩]

/-- Incoming record for the claim-C1 counterexample: version ids {1, 2}. -/
def e_c1 : ModelData := ⟨5, [⟨1, 0⟩, ⟨2, 0⟩]⟩

/-- Concrete store for claim C8: one Model row at url `u` with version ids
{1, 2}. -/
def db_c8 : List StoreRec := [⟨0, "u", "civitai.com", ⟨0, [⟨1, 0⟩, ⟨2, 0⟩]⟩, "full"⟩]

/-- Incoming record for claim C8: version ids {2, 3}. -/
def e_c8 : ModelData := ⟨7, [⟨2, 0⟩, ⟨3, 0⟩]⟩

/-- Version metadata whose first (and only) non-video image has the
unsupported extension `.webp` (claim C9). -/
def mvm_webp : MVMeta := ⟨some [⟨none, "https://image.civitai.com/x/y/a.webp", 512⟩]⟩

/-- Version metadata with one supported non-video `.png` image (claims C5 and
C9's contrast case). -/
def mvm_png : MVMeta := ⟨some [⟨none, "https://image.civitai.com/x/y/b.png", 512⟩]⟩

/-- C1, counterexample.  With stored version ids `{1}` and incoming ids
`{1, 2}`, no stored version is missing from the incoming record, so no graft
happens and the store is left untouched: the stored version-id set stays `{1}`
and is NOT the union `{1, 2}` — refuting the claim that reconciliation always
yields the union of the stored and incoming version-id sets. -/
theorem c1_counterexample :
    2 ∈ versionIds e_c1 ∧
      stored_ids (post_or_patch_model_entry db_c1 "u" e_c1).store "u" = [1] ∧
      2 ∉ stored_ids (post_or_patch_model_entry db_c1 "u" e_c1).store "u" := by
  decide

/-- C2, counterexample.  In the `src/civitai_api_wrapper.py` draft of
`safely_fetch_api_data`, with configured wait 1 and a transport whose body
never decodes, the two inter-attempt sleeps are `[1, 1]` — the plain
configured wait, not the doubled wait `2 * 1` the claim asserts for every
retry. -/
theorem c2_counterexample :
    (safely_fetch_api_data_draft 1 (fun _ => Body.undecodable) 1 3).sleeps = [1, 1] ∧
      ¬ (∀ s ∈ (safely_fetch_api_data_draft 1 (fun _ => Body.undecodable) 1 3).sleeps,
          s = 2 * 1) := by
  decide

/-- C3 (code bug).  A store failure on an item that has an `id` is caught and
logged and iteration continues (`.ok [1, 2]` — both failures logged, batch
completed); but an item missing `id` makes the `except` handler itself
re-evaluate `entry['id']`, so the `KeyError` escapes the callback, aborting
the rest of the batch — contradicting the claim that per-item failures
(including a missing `id`) never propagate. -/
theorem c3_theorem :
    scrape_callback_items (fun _ => .error "store error") [⟨some 1⟩, ⟨some 2⟩] = .ok [1, 2] ∧
      scrape_callback_items (fun _ => .error "store error") [⟨some 1⟩, ⟨none⟩, ⟨some 2⟩]
        = .error .keyError ∧
      scrape_callback_items (fun _ => .ok ()) [⟨none⟩, ⟨some 2⟩] = .error .keyError := by
  exact ⟨rfl, rfl, rfl⟩

/-- C4 (code bug).  When the fetcher yields the empty dict `{}` — its own
documented return value after exhausting JSON-decode retries —
`collect_assets_via_api` passes the `isinstance(data, dict)` guard and then
raises `KeyError` on `data["metadata"]` instead of logging and ending the
loop, contradicting the claim that the crawler never lets an exception
escape. -/
theorem c4_theorem :
    collect_assets_via_api (fun _ => .doc Doc.empty) 3
        "https://civitai.com/api/v1/models?sort=Newest&nsfw=true&limit=100"
      = .error .keyError := by
  exact rfl

/-- C5, counterexample.  With a supported `.png` image and a transport whose
every attempt leaves a file that EXISTS but is unhealthy, the ladder is
exhausted after 5 attempts and the function returns the target path, not
absent — refuting the claim that exhaustion always returns absent. -/
theorem c5_counterexample :
    download_image_for_model_file false (fun _ => ⟨true, false⟩) ⟨false, false⟩
        mvm_png "dir" "file"
      = ⟨.path "dir" "file" ".png", 5, [none, some 1080, some 720, some 576, some 480]⟩ ∧
      DlOutcome.path "dir" "file" ".png" ≠ .absent := by
  decide

/-- C6 (code bug).  A valid model file whose hash sidecar exists but whose
version-metadata and model-metadata sidecars are missing, combined with a
failed by-hash fetch (the fetcher's ordinary `{}` failure value), makes the
`else` branch of the model-metadata step load the missing sidecar file:
`FileNotFoundError` escapes instead of the claimed graceful tuple return. -/
theorem c6_theorem :
    download_data_for_model_file ⟨true, some "cachedhash", none, none⟩ ".safetensors"
        "computedsha" none none none true
      = .error .fileNotFound ∧
      download_data_for_model_file ⟨true, some "cachedhash", none, none⟩ ".safetensors"
          "computedsha" (some ⟨9, []⟩) (some ⟨1⟩) (some "img") true
        = .ok (some "cachedhash", some ⟨9, []⟩, some ⟨1⟩, some "img") := by
  constructor
  · rfl
  · rfl

/-- C8, counterexample.  Starting from a stored record with version ids
`{1, 2}`, reconciling the identical incoming record with ids `{2, 3}` twice
issues a patch write BOTH times: the stored-only version 1 is re-grafted on
every call, so the second reconciliation is not write-free — refuting the
claim that the identical record triggers no second patch write. -/
theorem c8_counterexample :
    (post_or_patch_model_entry (post_or_patch_model_entry db_c8 "u" e_c8).store "u"
        e_c8).patches = 1 ∧ (1 : Nat) ≠ 0 := by
  decide

/-- C9 (code bug).  For a first non-video image with unsupported extension
`.webp`: with a logger configured only the warning branch runs and the final
`return image_path` raises `UnboundLocalError`; with no logger the guard
`ext not in IMG_EXTS and self.logger` is false, so the unsupported file is
downloaded and its path returned — in neither case does the function log and
return absent without writing, as the claim states. -/
theorem c9_theorem :
    download_image_for_model_file true (fun _ => ⟨true, true⟩) ⟨false, false⟩
        mvm_webp "dir" "file" = ⟨.raised .unboundLocal, 0, []⟩ ∧
      download_image_for_model_file false (fun _ => ⟨true, true⟩) ⟨false, false⟩
          mvm_webp "dir" "file" = ⟨.path "dir" "file" ".webp", 1, [none]⟩ := by
  decide
/-- Run of the shared fetch core under an always-undecodable transport:
starting at try `c ≤ m` with enough fuel, it performs `m - c + 1` GET
attempts, sleeps `retrySleep` between consecutive attempts, and returns the
empty dict. -/
theorem safely_fetch_go_undecodable (retrySleep : Nat) (transport : Nat → Body)
    (h : ∀ n, transport n = Body.undecodable) :
    ∀ fuel c m, c ≤ m → m - c ≤ fuel →
      safely_fetch_go retrySleep transport fuel c m
        = ⟨m - c + 1, List.replicate (m - c) retrySleep, .doc Doc.empty⟩ := by
  intro fuel
  induction fuel with
  | zero =>
    intro c m hcm hf
    have hc : c = m := by omega
    subst hc
    rw [safely_fetch_go, h c]
    simp
  | succ f ih =>
    intro c m hcm hf
    by_cases hlt : c < m
    · rw [safely_fetch_go, h c]
      simp only [if_pos hlt]
      rw [ih (c + 1) m (by omega) (by omega)]
      have h1 : m - c = (m - (c + 1)) + 1 := by omega
      rw [h1]
      simp [List.replicate_succ]
    · have hc : c = m := by omega
      subst hc
      rw [safely_fetch_go, h c]
      simp [hlt]

/-- C2, amended.  For every wait, every `maxTries ≥ 1` and every transport
whose body always fails to decode, BOTH variants of `safely_fetch_api_data`
(entered with `current_try = 1`) issue exactly `maxTries` GET attempts and
return the empty dict, with no exception escaping (the outcome is a total
value); the `src/model/...` variant sleeps the constant `2 * wait` before each
retry (the configured wait doubled once, not doubled again per retry), while
the duplicated `src/civitai_api_wrapper.py` draft sleeps the plain `wait`. -/
theorem c2_theorem (wait maxTries : Nat) (transport : Nat → Body)
    (hm : 1 ≤ maxTries) (h : ∀ n, transport n = Body.undecodable) :
    safely_fetch_api_data_model wait transport 1 maxTries
        = ⟨maxTries, List.replicate (maxTries - 1) (2 * wait), .doc Doc.empty⟩ ∧
      safely_fetch_api_data_draft wait transport 1 maxTries
        = ⟨maxTries, List.replicate (maxTries - 1) wait, .doc Doc.empty⟩ := by
  constructor
  · rw [safely_fetch_api_data_model,
      safely_fetch_go_undecodable (2 * wait) transport h maxTries 1 maxTries hm (by omega)]
    congr 1
    omega
  · rw [safely_fetch_api_data_draft,
      safely_fetch_go_undecodable wait transport h maxTries 1 maxTries hm (by omega)]
    congr 1
    omega

/-- Witness for C2: at wait 1, `maxTries` 3 and a concretely always-failing
transport, the model variant runs 3 attempts with sleeps `[2, 2]` and the
draft variant 3 attempts with sleeps `[1, 1]`, both returning the empty
dict. -/
theorem c2_witness :
    safely_fetch_api_data_model 1 (fun _ => Body.undecodable) 1 3
        = ⟨3, [2, 2], .doc Doc.empty⟩ ∧
      safely_fetch_api_data_draft 1 (fun _ => Body.undecodable) 1 3
        = ⟨3, [1, 1], .doc Doc.empty⟩ := by
  have h := c2_theorem 1 3 (fun _ => Body.undecodable) (by decide) (fun _ => rfl)
  simpa using h
/-- Appending to a string concatenates the character lists. -/
theorem string_data_append (s t : String) : (s ++ t).data = s.data ++ t.data := by
  cases s
  cases t
  rfl

/-- An infix of `t` is an infix of `r ++ t`. -/
theorem infix_of_append_left {α : Type} {l t : List α} (r : List α)
    (h : l <:+: t) : l <:+: r ++ t := by
  obtain ⟨a, b, hab⟩ := h
  exact ⟨r ++ a, b, by rw [← hab]; simp⟩

/-- An infix of `r` is an infix of `r ++ t`. -/
theorem infix_of_append_right {α : Type} {l r : List α} (t : List α)
    (h : l <:+: r) : l <:+: r ++ t := by
  obtain ⟨a, b, hab⟩ := h
  exact ⟨a, b ++ t, by rw [← hab]; simp⟩

/-- If `"nsfw="` is a prefix of `w ++ "&limit=100"` it is already a prefix of
`w`: the pattern cannot straddle the boundary because no nonempty suffix of
`"nsfw="` starts with `&`. -/
theorem nsfw_not_prefix_cross (w : List Char)
    (h : "nsfw=".data <+: w ++ "&limit=100".data) : "nsfw=".data <+: w := by
  have hlen : ("nsfw=".data).length = 5 := by decide
  have htake := List.prefix_iff_eq_take.mp h
  rw [hlen, List.take_append_eq_append_take] at htake
  by_cases h5 : 5 ≤ w.length
  · have h0 : 5 - w.length = 0 := by omega
    rw [h0] at htake
    have heq : "nsfw=".data = w.take 5 := by simpa using htake
    rw [heq]
    exact List.take_prefix 5 w
  · exfalso
    have hw : w.take 5 = w := List.take_of_length_le (by omega)
    rw [hw] at htake
    have hdrop := congrArg (fun l => l.drop w.length) htake
    simp only [List.drop_left] at hdrop
    have hcase : w.length = 0 ∨ w.length = 1 ∨ w.length = 2 ∨ w.length = 3 ∨ w.length = 4 := by
      omega
    rcases hcase with h | h | h | h | h <;> rw [h] at hdrop <;> exact absurd hdrop (by decide)

/-- If `"nsfw="` occurs in `u ++ "&limit=100"` it already occurs in `u`:
appending the page-size parameter cannot create an `nsfw=` occurrence. -/
theorem nsfw_no_cross (u : List Char)
    (h : "nsfw=".data <:+: u ++ "&limit=100".data) : "nsfw=".data <:+: u := by
  induction u with
  | nil => exact absurd h (by decide)
  | cons c rest ih =>
    rw [List.cons_append] at h
    rcases List.infix_cons_iff.mp h with hp | hi
    · have hpre : "nsfw=".data <+: c :: rest := by
        have := nsfw_not_prefix_cross (c :: rest) (by rw [List.cons_append]; exact hp)
        exact this
      exact List.IsPrefix.isInfix hpre
    · obtain ⟨a, b, hab⟩ := ih hi
      exact ⟨c :: a, b, by rw [← hab]; rfl⟩

/-- C7 (confirmed).  Let `r` be the normalized form of an extracted `nextPage`
cursor `u`.  (1) If `u` contains both `limit=` and `nsfw=`, `r = u` — the
cursor is passed to the next fetch completely unmodified.  (2) If `u` lacks
`limit=`, then `r` is exactly `u` with `&limit=100` appended, followed by
`&nsfw=true` exactly when `u` also lacks `nsfw=`.  (3) If `u` lacks `nsfw=`,
then `r` ends with `&nsfw=true`.  (4) In every case the result contains both
parameters. -/
theorem c7_theorem (u : String) :
    (("limit=".data <:+: u.data) → ("nsfw=".data <:+: u.data) →
        normalize_next_page_url u = u) ∧
      (¬ ("limit=".data <:+: u.data) →
        (normalize_next_page_url u).data =
          u.data ++ "&limit=100".data ++
            (if "nsfw=".data <:+: u.data then [] else "&nsfw=true".data)) ∧
      (¬ ("nsfw=".data <:+: u.data) →
        "&nsfw=true".data <:+ (normalize_next_page_url u).data) ∧
      ("limit=".data <:+: (normalize_next_page_url u).data ∧
        "nsfw=".data <:+: (normalize_next_page_url u).data) := by
  by_cases hl : "limit=".data <:+: u.data
  · by_cases hn : "nsfw=".data <:+: u.data
    · refine ⟨fun _ _ => ?_, fun h => absurd hl h, fun h => absurd hn h, ?_, ?_⟩
      · rw [normalize_next_page_url]
        simp [hl, hn]
      · rw [normalize_next_page_url]
        simp [hl, hn]
      · rw [normalize_next_page_url]
        simp [hl, hn]
    · have hr : normalize_next_page_url u = u ++ "&nsfw=true" := by
        rw [normalize_next_page_url]
        simp [hl, hn]
      refine ⟨fun _ hc => absurd hc hn, fun h => absurd hl h, fun _ => ?_, ?_, ?_⟩
      · rw [hr, string_data_append]
        exact List.suffix_append u.data "&nsfw=true".data
      · rw [hr, string_data_append]
        exact infix_of_append_right _ hl
      · rw [hr, string_data_append]
        exact infix_of_append_left u.data (by decide)
  · by_cases hn : "nsfw=".data <:+: u.data
    · have hn1 : "nsfw=".data <:+: (u ++ "&limit=100").data := by
        rw [string_data_append]
        exact infix_of_append_right _ hn
      have hr : normalize_next_page_url u = u ++ "&limit=100" := by
        simp only [normalize_next_page_url]
        rw [if_neg hl, if_pos hn1]
      refine ⟨fun hc => absurd hc hl, fun _ => ?_, fun h => absurd hn h, ?_, ?_⟩
      · rw [hr, string_data_append, if_pos hn]
        simp
      · rw [hr, string_data_append]
        exact infix_of_append_left u.data (by decide)
      · rw [hr, string_data_append]
        exact infix_of_append_right _ hn
    · have hn1 : ¬ "nsfw=".data <:+: (u ++ "&limit=100").data := by
        rw [string_data_append]
        intro hcon
        exact hn (nsfw_no_cross u.data hcon)
      have hr : normalize_next_page_url u = (u ++ "&limit=100") ++ "&nsfw=true" := by
        simp only [normalize_next_page_url]
        rw [if_neg hl, if_neg hn1]
      refine ⟨fun hc => absurd hc hl, fun _ => ?_, fun _ => ?_, ?_, ?_⟩
      · rw [hr, string_data_append, string_data_append, if_neg hn]
      · rw [hr, string_data_append]
        exact List.suffix_append _ _
      · rw [hr, string_data_append, string_data_append]
        exact infix_of_append_right _ (infix_of_append_left u.data (by decide))
      · rw [hr, string_data_append]
        exact infix_of_append_left _ (by decide)

/-- Witness for C7: a cursor already containing both parameters is returned
unmodified, and a cursor lacking both gets `&limit=100` then `&nsfw=true`
appended (in particular `&nsfw=true` is a suffix of the result). -/
theorem c7_witness :
    normalize_next_page_url "x?limit=100&nsfw=true&cursor=k"
        = "x?limit=100&nsfw=true&cursor=k" ∧
      (normalize_next_page_url "x?cursor=k").data
        = "x?cursor=k".data ++ "&limit=100".data ++ "&nsfw=true".data ∧
      "&nsfw=true".data <:+ (normalize_next_page_url "x?cursor=k").data := by
  refine ⟨( c7_theorem "x?limit=100&nsfw=true&cursor=k").1 (by decide) (by decide), ?_, ?_⟩
  · have h := ( c7_theorem "x?cursor=k").2.1 (by decide)
    rw [h]
    simp only [if_neg (by decide : ¬ ("nsfw=".data <:+: "x?cursor=k".data))]
  · exact ( c7_theorem "x?cursor=k").2.2.1 (by decide)
/-- Membership in a version list's ids, phrased through Python's
`any(u["id"] == x for u in l)`. -/
theorem any_id_eq_mem (e : List MV) (n : Nat) :
    (e.any fun u => u.id == n) = true ↔ n ∈ mv_ids e := by
  simp [mv_ids, List.any_eq_true]

/-- The ids present after grafting are exactly the union of the incoming and
stored ids. -/
theorem graft_ids_mem (s : List MV) :
    ∀ (e : List MV) (n : Nat),
      n ∈ mv_ids (graft_model_versions s e).1 ↔ n ∈ mv_ids e ∨ n ∈ mv_ids s := by
  induction s with
  | nil => intro e n; simp [graft_model_versions, mv_ids]
  | cons mv rest ih =>
    intro e n
    by_cases hc : (e.any fun u => u.id == mv.id) = true
    · have hmv : mv.id ∈ mv_ids e := (any_id_eq_mem e mv.id).mp hc
      rw [graft_model_versions, if_pos hc, ih e n]
      simp only [mv_ids, List.map_cons, List.mem_cons] at *
      constructor
      · rintro (h | h)
        · exact Or.inl h
        · exact Or.inr (Or.inr h)
      · rintro (h | h | h)
        · exact Or.inl h
        · rw [h]; exact Or.inl hmv
        · exact Or.inr h
    · rw [graft_model_versions, if_neg hc]
      have := ih (e ++ [mv]) n
      simp only [mv_ids, List.map_append, List.map_cons, List.map_nil,
        List.mem_append, List.mem_cons, List.mem_singleton] at *
      tauto

/-- When every stored id in a front segment is already present in the incoming
list, grafting skips that segment entirely. -/
theorem graft_skip_front (s₁ : List MV) :
    ∀ (s₂ e : List MV), (∀ v ∈ s₁, v.id ∈ mv_ids e) →
      graft_model_versions (s₁ ++ s₂) e = graft_model_versions s₂ e := by
  induction s₁ with
  | nil => intro s₂ e _; rfl
  | cons mv rest ih =>
    intro s₂ e hmem
    have hc : (e.any fun u => u.id == mv.id) = true :=
      (any_id_eq_mem e mv.id).mpr (hmem mv (by simp))
    rw [List.cons_append, graft_model_versions, if_pos hc]
    exact ih s₂ e (fun v hv => hmem v (by simp [hv]))

/-- Grafting a stored list whose ids are all already incoming is a no-op. -/
theorem graft_skip_all (s e : List MV) (hmem : ∀ v ∈ s, v.id ∈ mv_ids e) :
    graft_model_versions s e = (e, false) := by
  have := graft_skip_front s [] e hmem
  rw [List.append_nil] at this
  rw [this]
  rfl

/-- Grafting a nonempty list of fresh versions (pairwise-distinct ids, none
incoming) appends them all and reports a graft. -/
theorem graft_fresh_cons (ex : List MV) :
    ∀ (mv : MV) (e : List MV), (∀ v ∈ mv :: ex, v.id ∉ mv_ids e) →
      (mv_ids (mv :: ex)).Nodup →
      graft_model_versions (mv :: ex) e = (e ++ mv :: ex, true) := by
  induction ex with
  | nil =>
    intro mv e hfresh _
    have hc : ¬ (e.any fun u => u.id == mv.id) = true := by
      rw [any_id_eq_mem]
      exact hfresh mv (by simp)
    rw [graft_model_versions, if_neg hc]
    rfl
  | cons mv₂ ex' ih =>
    intro mv e hfresh hnodup
    have hc : ¬ (e.any fun u => u.id == mv.id) = true := by
      rw [any_id_eq_mem]
      exact hfresh mv (by simp)
    rw [graft_model_versions, if_neg hc]
    have h1 : mv.id ∉ mv_ids (mv₂ :: ex') ∧ (mv_ids (mv₂ :: ex')).Nodup := by
      have h0 := hnodup
      rw [show mv_ids (mv :: mv₂ :: ex') = mv.id :: mv_ids (mv₂ :: ex') from rfl] at h0
      exact List.nodup_cons.mp h0
    have hfresh₂ : ∀ v ∈ mv₂ :: ex', v.id ∉ mv_ids (e ++ [mv]) := by
      intro v hv hmem
      have hsplit : v.id ∈ mv_ids e ∨ v.id = mv.id := by
        simpa [mv_ids] using hmem
      rcases hsplit with h | h
      · exact hfresh v (List.mem_cons_of_mem mv hv) h
      · have hv' : mv.id ∈ mv_ids (mv₂ :: ex') := by
          rw [← h]
          exact List.mem_map_of_mem MV.id hv
        exact h1.1 hv'
    rw [ih mv₂ (e ++ [mv]) hfresh₂ h1.2]
    simp
/-- Structure of a graft result: the incoming list followed by a block of
grafted stored versions with pairwise-distinct ids none of which are incoming;
the graft flag is set exactly when the block is nonempty. -/
theorem graft_decomp (s : List MV) :
    ∀ e : List MV, ∃ ex : List MV,
      (graft_model_versions s e).1 = e ++ ex ∧
        (∀ v ∈ ex, v.id ∉ mv_ids e) ∧ (mv_ids ex).Nodup ∧
        ((graft_model_versions s e).2 = true ↔ ex ≠ []) := by
  induction s with
  | nil =>
    intro e
    exact ⟨[], by simp [graft_model_versions], by simp, by simp [mv_ids],
      by simp [graft_model_versions]⟩
  | cons mv rest ih =>
    intro e
    by_cases hc : (e.any fun u => u.id == mv.id) = true
    · obtain ⟨ex, h1, h2, h3, h4⟩ := ih e
      exact ⟨ex, by rw [graft_model_versions, if_pos hc]; exact h1,
        h2, h3, by rw [graft_model_versions, if_pos hc]; exact h4⟩
    · obtain ⟨ex', h1, h2, h3, h4⟩ := ih (e ++ [mv])
      refine ⟨mv :: ex', ?_, ?_, ?_, ?_⟩
      · rw [graft_model_versions, if_neg hc, h1]
        simp
      · intro v hv
        rcases List.mem_cons.mp hv with h | h
        · rw [h]
          rw [any_id_eq_mem] at hc
          exact hc
        · intro hcon
          exact h2 v h (by simp [mv_ids, List.map_append]; exact Or.inl (by simpa [mv_ids] using hcon))
      · rw [show mv_ids (mv :: ex') = mv.id :: mv_ids ex' from rfl]
        rw [List.nodup_cons]
        refine ⟨?_, h3⟩
        intro hcon
        obtain ⟨v, hv, hvid⟩ := List.mem_map.mp (by simpa [mv_ids] using hcon)
        have := h2 v hv
        simp only [mv_ids, List.map_append, List.mem_append] at this
        exact this (Or.inr (by simp [hvid]))
      · rw [graft_model_versions, if_neg hc]
        simp

/-- The graft flag is clear exactly when every stored id is already present in
the incoming list. -/
theorem graft_false_iff (s : List MV) :
    ∀ e : List MV,
      (graft_model_versions s e).2 = false ↔ ∀ n ∈ mv_ids s, n ∈ mv_ids e := by
  induction s with
  | nil => intro e; simp [graft_model_versions, mv_ids]
  | cons mv rest ih =>
    intro e
    have hids : mv_ids (mv :: rest) = mv.id :: mv_ids rest := rfl
    by_cases hc : (e.any fun u => u.id == mv.id) = true
    · rw [graft_model_versions, if_pos hc, ih e, hids]
      have hmv : mv.id ∈ mv_ids e := (any_id_eq_mem e mv.id).mp hc
      constructor
      · intro h n hn
        rcases List.mem_cons.mp hn with h' | h'
        · rw [h']; exact hmv
        · exact h n h'
      · intro h n hn
        exact h n (List.mem_cons_of_mem _ hn)
    · rw [graft_model_versions, if_neg hc]
      constructor
      · intro h
        simp at h
      · intro h
        rw [any_id_eq_mem] at hc
        exact absurd (h mv.id (by rw [hids]; exact List.mem_cons_self _ _)) hc

/-- Re-grafting the same incoming list against an already-grafted result
reproduces the result and the flag: the graft reaches no new versions but
re-reports the same grafts. -/
theorem graft_regraft (s e : List MV) :
    graft_model_versions (graft_model_versions s e).1 e = graft_model_versions s e := by
  obtain ⟨ex, h1, h2, h3, h4⟩ := graft_decomp s e
  have hskip : graft_model_versions (e ++ ex) e = graft_model_versions ex e :=
    graft_skip_front e ex e (fun v hv => List.mem_map_of_mem MV.id hv)
  rcases ex with _ | ⟨mv, ex'⟩
  · have hb : (graft_model_versions s e).2 = false := by
      cases hB : (graft_model_versions s e).2
      · rfl
      · exact absurd rfl (h4.mp hB)
    have hg : graft_model_versions s e = (e, false) := by
      have h1' : (graft_model_versions s e).1 = e := by simpa using h1
      cases hG : graft_model_versions s e with
      | mk a b =>
        rw [hG] at h1' hb
        simp at h1' hb
        rw [h1', hb]
    rw [h1, hskip, hg]
    rfl
  · have hb : (graft_model_versions s e).2 = true := h4.mpr (by simp)
    have hg : graft_model_versions s e = (e ++ mv :: ex', true) := by
      cases hG : graft_model_versions s e with
      | mk a b =>
        rw [hG] at h1 hb
        simp only [Prod.mk.injEq]
        exact ⟨h1, hb⟩
    rw [hg] at h1 hb ⊢
    rw [hskip, graft_fresh_cons ex' mv e h2 h3]
/-- Patching by surrogate key never changes which rows match a URL filter:
filtering commutes with the patch map. -/
theorem filter_patch_store (db : List StoreRec) (u : String) (rid : Nat) (d : ModelData) :
    (patch_store db rid d).filter (fun r => r.url == u)
      = (db.filter (fun r => r.url == u)).map
          (fun r => if r.rid == rid then { r with data := d } else r) := by
  induction db with
  | nil => rfl
  | cons r rest ih =>
    have hurl : ((if r.rid == rid then { r with data := d } else r) : StoreRec).url = r.url := by
      by_cases hrid : (r.rid == rid) = true
      · simp [hrid]
      · simp [hrid]
    simp only [patch_store, List.map_cons, List.filter_cons] at ih ⊢
    rw [hurl]
    by_cases hcond : (r.url == u) = true
    · rw [if_pos hcond, if_pos hcond, List.map_cons, ih]
    · rw [if_neg hcond, if_neg hcond, ih]

/-- Patching twice with the same key and payload equals patching once. -/
theorem patch_store_idem (db : List StoreRec) (rid : Nat) (d : ModelData) :
    patch_store (patch_store db rid d) rid d = patch_store db rid d := by
  induction db with
  | nil => rfl
  | cons r rest ih =>
    simp only [patch_store, List.map_cons] at *
    rw [ih]
    by_cases hrid : (r.rid == rid) = true
    · simp [hrid]
    · simp [hrid]

/-- When the URL filter selects a first row `h0`, reconciliation either
patches `h0`'s row with the graft-augmented incoming entry (one patch write)
or — when nothing was grafted — leaves the store untouched. -/
theorem post_or_patch_of_filter_cons (db : List StoreRec) (u : String) (e : ModelData)
    (h0 : StoreRec) (t : List StoreRec)
    (hfil : db.filter (fun r => r.url == u) = h0 :: t) :
    post_or_patch_model_entry db u e =
      (if (graft_model_versions h0.data.modelVersions e.modelVersions).2 then
        ⟨patch_store db h0.rid
          { e with modelVersions :=
              (graft_model_versions h0.data.modelVersions e.modelVersions).1 }, 1, 0⟩
      else ⟨db, 0, 0⟩) := by
  rw [post_or_patch_model_entry, hfil]

/-- When no row matches the URL, reconciliation posts a fresh row. -/
theorem post_or_patch_of_filter_nil (db : List StoreRec) (u : String) (e : ModelData)
    (hfil : db.filter (fun r => r.url == u) = []) :
    post_or_patch_model_entry db u e = ⟨post_store db u e, 0, 1⟩ := by
  rw [post_or_patch_model_entry, hfil]

/-- The stored payload after a patch, given the first matching row before the
patch. -/
theorem stored_data_patch (db : List StoreRec) (u : String) (rid : Nat) (d : ModelData)
    (h0 : StoreRec) (t : List StoreRec)
    (hfil : db.filter (fun r => r.url == u) = h0 :: t) :
    stored_data (patch_store db rid d) u
      = some (if h0.rid == rid then d else h0.data) := by
  rw [stored_data, filter_patch_store, hfil]
  by_cases hrid : (h0.rid == rid) = true
  · have heq : h0.rid = rid := by simpa using hrid
    simp [heq]
  · have hne : ¬ h0.rid = rid := by simpa using hrid
    simp [hne]

/-- The stored payload after a post at a previously unseen URL is the incoming
entry. -/
theorem stored_data_post (db : List StoreRec) (u : String) (e : ModelData)
    (hfil : db.filter (fun r => r.url == u) = []) :
    stored_data (post_store db u e) u = some e := by
  rw [stored_data, post_store, List.filter_append, hfil]
  simp

/-- A `some` stored payload comes from a nonempty filter whose head carries
it. -/
theorem stored_data_some (db : List StoreRec) (u : String) (d : ModelData)
    (hd : stored_data db u = some d) :
    ∃ h0 t, db.filter (fun r => r.url == u) = h0 :: t ∧ h0.data = d := by
  rw [stored_data] at hd
  cases hfil : db.filter (fun r => r.url == u) with
  | nil => rw [hfil] at hd; simp at hd
  | cons h0 t =>
    rw [hfil] at hd
    simp at hd
    exact ⟨h0, t, rfl, hd⟩

/-- Single reconciliation never loses a stored version id. -/
theorem stored_ids_mono_step (db : List StoreRec) (u : String) (e : ModelData) (n : Nat)
    (hn : n ∈ stored_ids db u) :
    n ∈ stored_ids (post_or_patch_model_entry db u e).store u := by
  rw [stored_ids] at hn
  cases hd : stored_data db u with
  | none => rw [hd] at hn; simp at hn
  | some d =>
    rw [hd] at hn
    obtain ⟨h0, t, hfil, hdat⟩ := stored_data_some db u d hd
    rw [post_or_patch_of_filter_cons db u e h0 t hfil]
    by_cases hg : (graft_model_versions h0.data.modelVersions e.modelVersions).2 = true
    · rw [if_pos hg]
      rw [stored_ids,
        stored_data_patch db u h0.rid _ h0 t hfil]
      simp only [beq_self_eq_true, if_pos]
      rw [show versionIds { e with modelVersions :=
          (graft_model_versions h0.data.modelVersions e.modelVersions).1 }
        = mv_ids (graft_model_versions h0.data.modelVersions e.modelVersions).1 from rfl]
      rw [graft_ids_mem]
      right
      rw [hdat]
      exact hn
    · rw [if_neg hg]
      rw [stored_ids, hd]
      exact hn

/-- Across any sequence of merges against the same URL, the stored version-id
set never decreases. -/
theorem stored_ids_mono_many (u : String) (es : List ModelData) :
    ∀ (db : List StoreRec) (n : Nat),
      n ∈ stored_ids db u → n ∈ stored_ids (merge_many db u es) u := by
  induction es with
  | nil => intro db n hn; exact hn
  | cons e' rest ih =>
    intro db n hn
    rw [merge_many]
    simp only [List.foldl_cons]
    exact ih _ n (stored_ids_mono_step db u e' n hn)

/-- C1, amended.  For a stored Model record `d` at `url`: (1) whenever at
least one stored version id is absent from the incoming record, reconciliation
patches the stored payload and its version-id set becomes exactly the union of
the stored and incoming sets; (2) across ANY sequence of merges the stored
version-id set never decreases.  (When every stored id already occurs in the
incoming record the store is left untouched, so the result then is the stored
set rather than the union — see the counterexample.) -/
theorem c1_theorem (db : List StoreRec) (u : String) (e d : ModelData)
    (hd : stored_data db u = some d) :
    ((∃ n, n ∈ versionIds d ∧ n ∉ versionIds e) →
      ∃ d', stored_data (post_or_patch_model_entry db u e).store u = some d' ∧
        ∀ n, n ∈ versionIds d' ↔ n ∈ versionIds d ∨ n ∈ versionIds e) ∧
      (∀ es : List ModelData, ∀ n, n ∈ stored_ids db u →
        n ∈ stored_ids (merge_many db u es) u) := by
  constructor
  · rintro ⟨n, hn, hnot⟩
    obtain ⟨h0, t, hfil, hdat⟩ := stored_data_some db u d hd
    have hg : (graft_model_versions h0.data.modelVersions e.modelVersions).2 = true := by
      cases hB : (graft_model_versions h0.data.modelVersions e.modelVersions).2
      · exfalso
        have hall := (graft_false_iff h0.data.modelVersions e.modelVersions).mp hB
        rw [hdat] at hall
        exact hnot (hall n hn)
      · rfl
    rw [post_or_patch_of_filter_cons db u e h0 t hfil, if_pos hg]
    refine ⟨{ e with modelVersions :=
        (graft_model_versions h0.data.modelVersions e.modelVersions).1 }, ?_, ?_⟩
    · rw [stored_data_patch db u h0.rid _ h0 t hfil]
      simp
    · intro n'
      rw [show versionIds { e with modelVersions :=
          (graft_model_versions h0.data.modelVersions e.modelVersions).1 }
        = mv_ids (graft_model_versions h0.data.modelVersions e.modelVersions).1 from rfl]
      rw [graft_ids_mem, hdat]
      exact Or.comm
  · intro es n hn
    exact stored_ids_mono_many u es db n hn

/-- Witness for C1: with stored version ids `{1, 2}` and incoming ids
`{2, 3}` (version 1 is stored-only), the reconciled stored payload's id set is
exactly the union `{1, 2, 3}`, and a stored id (1) survives a further merge
sequence. -/
theorem c1_witness :
    (∃ d', stored_data (post_or_patch_model_entry db_c8 "u" e_c8).store "u" = some d' ∧
      ∀ n, n ∈ versionIds d' ↔ n ∈ versionIds (⟨0, [⟨1, 0⟩, ⟨2, 0⟩]⟩ : ModelData)
        ∨ n ∈ versionIds e_c8) ∧
      1 ∈ stored_ids (merge_many db_c8 "u" [e_c8]) "u" := by
  have h := c1_theorem db_c8 "u" e_c8 ⟨0, [⟨1, 0⟩, ⟨2, 0⟩]⟩ (by decide)
  exact ⟨h.1 ⟨1, by decide, by decide⟩, h.2 [e_c8] 1 (by decide)⟩
/-- Every member of a version list has its id among the list's ids. -/
theorem mem_mv_ids_self (e : List MV) : ∀ v ∈ e, v.id ∈ mv_ids e :=
  fun _ hv => List.mem_map_of_mem MV.id hv

/-- C8, amended.  Reconciling the identical incoming record twice leaves the
store VALUE unchanged after the second call (the second patch, when issued,
rewrites the same payload) and posts nothing; but the second call issues no
patch write only when every version id stored after the first call already
occurs in the incoming record — when the stored record retains versions absent
from the incoming one, every repetition re-grafts them and re-issues a patch
write of the identical payload (see the counterexample). -/
theorem c8_theorem (db : List StoreRec) (u : String) (e : ModelData) :
    (post_or_patch_model_entry (post_or_patch_model_entry db u e).store u e).store
        = (post_or_patch_model_entry db u e).store ∧
      (post_or_patch_model_entry (post_or_patch_model_entry db u e).store u e).posts = 0 ∧
      ((post_or_patch_model_entry (post_or_patch_model_entry db u e).store u e).patches = 0 ↔
        ∀ n ∈ stored_ids (post_or_patch_model_entry db u e).store u,
          n ∈ mv_ids e.modelVersions) := by
  cases hfil : db.filter (fun r => r.url == u) with
  | nil =>
    -- first call posts a fresh row carrying `e` itself; the second call then
    -- grafts `e` against itself, a no-op
    have h1 : post_or_patch_model_entry db u e = ⟨post_store db u e, 0, 1⟩ :=
      post_or_patch_of_filter_nil db u e hfil
    have hfil₂ : (post_store db u e).filter (fun r => r.url == u)
        = [⟨fresh_id db, u, "civitai.com", e, "full"⟩] := by
      rw [post_store, List.filter_append, hfil]
      simp
    have hskip : graft_model_versions e.modelVersions e.modelVersions
        = (e.modelVersions, false) :=
      graft_skip_all e.modelVersions e.modelVersions (mem_mv_ids_self e.modelVersions)
    have h2 : post_or_patch_model_entry (post_store db u e) u e
        = ⟨post_store db u e, 0, 0⟩ := by
      rw [post_or_patch_of_filter_cons _ u e _ [] hfil₂]
      have hsk : graft_model_versions
          (⟨fresh_id db, u, "civitai.com", e, "full"⟩ : StoreRec).data.modelVersions
          e.modelVersions = (e.modelVersions, false) := hskip
      rw [hsk]
      rfl
    rw [h1]
    simp only [h2]
    refine ⟨by trivial, by trivial, ?_⟩
    constructor
    · intro _ n hn
      simp only [stored_ids, stored_data_post db u e hfil] at hn
      exact hn
    · intro _
      trivial
  | cons h0 t =>
    cases hB : (graft_model_versions h0.data.modelVersions e.modelVersions).2 with
    | false =>
      -- nothing grafted: store untouched, the second call repeats the first
      have h1 : post_or_patch_model_entry db u e = ⟨db, 0, 0⟩ := by
        rw [post_or_patch_of_filter_cons db u e h0 t hfil, hB]
        rfl
      rw [h1]
      simp only [h1]
      refine ⟨by trivial, by trivial, ?_⟩
      constructor
      · intro _ n hn
        simp only [stored_ids, stored_data, hfil, List.head?_cons, Option.map_some'] at hn
        exact (graft_false_iff h0.data.modelVersions e.modelVersions).mp hB n hn
      · intro _
        trivial
    | true =>
      -- grafted: first call patches; second call re-grafts the identical
      -- block and re-patches the identical payload
      set g1 := graft_model_versions h0.data.modelVersions e.modelVersions with hg1
      set d1 : ModelData := { e with modelVersions := g1.1 } with hd1
      have h1 : post_or_patch_model_entry db u e = ⟨patch_store db h0.rid d1, 1, 0⟩ := by
        rw [post_or_patch_of_filter_cons db u e h0 t hfil, hB]
        rfl
      have hfil₂ : (patch_store db h0.rid d1).filter (fun r => r.url == u)
          = { h0 with data := d1 } ::
              t.map (fun r => if r.rid == h0.rid then { r with data := d1 } else r) := by
        rw [filter_patch_store, hfil]
        simp
      have hre : graft_model_versions
          ({ h0 with data := d1 } : StoreRec).data.modelVersions e.modelVersions
          = (g1.1, true) := by
        have hpair : graft_model_versions g1.1 e.modelVersions = g1 := by
          have := graft_regraft h0.data.modelVersions e.modelVersions
          rw [← hg1] at this
          exact this
        rw [show ({ h0 with data := d1 } : StoreRec).data.modelVersions = g1.1 from rfl]
        rw [hpair]
        cases hG : g1 with
        | mk a b =>
          rw [hG] at hB
          simp only at hB
          rw [hB]
      have hidem := patch_store_idem db h0.rid d1
      have h2 : post_or_patch_model_entry (patch_store db h0.rid d1) u e
          = ⟨patch_store db h0.rid d1, 1, 0⟩ := by
        rw [post_or_patch_of_filter_cons _ u e _ _ hfil₂, hre]
        exact congrArg (fun s => (⟨s, 1, 0⟩ : ReconcileOut)) hidem
      rw [h1]
      simp only [h2]
      refine ⟨by trivial, by trivial, ?_⟩
      have hsd : stored_data (patch_store db h0.rid d1) u = some d1 := by
        rw [stored_data_patch db u h0.rid d1 h0 t hfil]
        simp
      constructor
      · intro h
        exact absurd h (by decide)
      · intro hall
        exfalso
        obtain ⟨ex, he1, he2, _, he4⟩ := graft_decomp h0.data.modelVersions e.modelVersions
        rcases ex with _ | ⟨mv, ex'⟩
        · exact (he4.mp hB) rfl
        · have hmem : mv.id ∈ stored_ids (patch_store db h0.rid d1) u := by
            simp only [stored_ids, hsd]
            rw [show versionIds d1 = mv_ids g1.1 from rfl, he1]
            simp [mv_ids]
          exact he2 mv (by simp) (hall mv.id hmem)

/-- Witness for C8: in the posted-then-reconciled scenario (fresh url), the
second reconciliation leaves the store unchanged, posts nothing, and issues no
patch write since every stored id then occurs in the incoming record. -/
theorem c8_witness :
    (post_or_patch_model_entry (post_or_patch_model_entry [] "u" e_c8).store "u"
        e_c8).store = (post_or_patch_model_entry [] "u" e_c8).store ∧
      (post_or_patch_model_entry (post_or_patch_model_entry [] "u" e_c8).store "u"
        e_c8).patches = 0 := by
  have h := c8_theorem [] "u" e_c8
  exact ⟨h.1, h.2.2.mpr (by decide)⟩
/-- Exhausting run of the download retry loop: when the file is unhealthy
before and after every attempt, the loop starting at `tries` with `d`
remaining iterations (up to the guard bound) performs exactly `d` download
attempts with the width arguments of attempts `tries, …, tries + d - 1`, and
the final file state is the one left by the last attempt. -/
theorem download_loop_exhaust (effect : Nat → FileSt)
    (hk : ∀ k, (effect k).healthy = false) :
    ∀ (d tries : Nat) (s : FileSt) (fuel : Nat),
      tries + d = IMG_WIDTHS.length + 1 → s.healthy = false → d + 1 ≤ fuel →
      download_loop effect fuel tries s
        = ((if d = 0 then s else effect IMG_WIDTHS.length), d,
            (List.range' tries d).map width_arg) := by
  intro d
  induction d with
  | zero =>
    intro tries s fuel hsum hs hfuel
    obtain ⟨f, rfl⟩ : ∃ f, fuel = f + 1 := ⟨fuel - 1, by omega⟩
    rw [download_loop]
    have hguard : ¬ (s.healthy = false ∧ tries ≤ IMG_WIDTHS.length) := by
      rintro ⟨_, hle⟩
      omega
    rw [if_neg hguard]
    simp
  | succ d ih =>
    intro tries s fuel hsum hs hfuel
    obtain ⟨f, rfl⟩ : ∃ f, fuel = f + 1 := ⟨fuel - 1, by omega⟩
    rw [download_loop]
    have hguard : s.healthy = false ∧ tries ≤ IMG_WIDTHS.length := ⟨hs, by omega⟩
    rw [if_pos hguard]
    rw [ih (tries + 1) (effect tries) f (by omega) (hk tries) (by omega)]
    have hrange : List.range' tries (d + 1) = tries :: List.range' (tries + 1) d :=
      List.range'_succ tries d 1
    rw [hrange, List.map_cons]
    by_cases hd : d = 0
    · subst hd
      have htries : tries = IMG_WIDTHS.length := by omega
      subst htries
      simp
    · simp [hd]

/-- C5, amended.  For version metadata whose first non-video image has a
supported extension, when the connectivity probe reports the network up and
every attempt leaves an unhealthy target file, `download_image_for_model_file`
performs exactly `1 + len(IMG_WIDTHS)` download attempts — attempt 0 at native
resolution and attempts 1..4 at widths 1080, 720, 576, 480 — and then returns
WITHOUT raising: absent when no file exists at the target path after the last
attempt, but the target path itself when an (unhealthy) file exists there (see
the counterexample for the latter case, which refutes the claim's
unconditional "returns absent"). -/
theorem c5_theorem (hasLogger : Bool) (effect : Nat → FileSt) (s0 : FileSt)
    (mvm : MVMeta) (directory file_name : String) (imgs : List ImgData)
    (img : ImgData) (rest : List ImgData)
    (himgs : mvm.images? = some imgs)
    (hfilter : imgs.filter (fun i => (i.type?.getD "image") ≠ "video") = img :: rest)
    (hext : String.mk (splitext_ext (last_url_part img.url)) ∈ IMG_EXTS)
    (hs0 : s0.healthy = false) (heff : ∀ k, (effect k).healthy = false) :
    download_image_for_model_file hasLogger effect s0 mvm directory file_name
        = ⟨if (effect 4).ex then
              .path directory file_name (String.mk (splitext_ext (last_url_part img.url)))
            else .absent,
            1 + IMG_WIDTHS.length, [none, some 1080, some 720, some 576, some 480]⟩ ∧
      ∀ er : PyErr,
        (download_image_for_model_file hasLogger effect s0 mvm directory file_name).outcome
          ≠ DlOutcome.raised er := by
  have hne : imgs.isEmpty = false := by
    cases imgs
    · simp at hfilter
    · rfl
  have hloop := download_loop_exhaust effect heff 5 0 s0 (IMG_WIDTHS.length + 2)
    (by decide) hs0 (by decide)
  rw [if_neg (by decide : ¬ (5 = 0))] at hloop
  have hw : (List.range' 0 5).map width_arg
      = [none, some 1080, some 720, some 576, some 480] := by decide
  rw [hw] at hloop
  have hmain : download_image_for_model_file hasLogger effect s0 mvm directory file_name
      = ⟨if (effect 4).ex then
            .path directory file_name (String.mk (splitext_ext (last_url_part img.url)))
          else .absent,
          1 + IMG_WIDTHS.length, [none, some 1080, some 720, some 576, some 480]⟩ := by
    rw [download_image_for_model_file, himgs]
    simp only [hne, Bool.false_eq_true, if_false, hfilter]
    rw [if_neg (fun hc => hc.1 hext)]
    rw [hloop]
    rfl
  refine ⟨hmain, ?_⟩
  intro er
  rw [hmain]
  by_cases hex : (effect 4).ex = true
  · simp [hex]
  · simp [hex]

/-- Witness for C5: with one supported non-video `.png` image, an initial
missing file, and downloads that never produce a file, all 5 attempts run at
native, 1080, 720, 576, 480 and the call returns absent. -/
theorem c5_witness :
    download_image_for_model_file false (fun _ => ⟨false, false⟩) ⟨false, false⟩
        mvm_png "dir2" "file2"
      = ⟨.absent, 5, [none, some 1080, some 720, some 576, some 480]⟩ := by
  have h := c5_theorem false (fun _ => ⟨false, false⟩) ⟨false, false⟩ mvm_png "dir2"
    "file2" [⟨none, "https://image.civitai.com/x/y/b.png", 512⟩]
    ⟨none, "https://image.civitai.com/x/y/b.png", 512⟩ [] rfl rfl (by decide) rfl
    (fun _ => rfl)
  rw [h.1]
  decide
/-- Length of a synthetic page cursor. -/
theorem cursor_len (k : Nat) : (cursor_name k).data.length = k + 20 := by
  simp [cursor_name]

/-- Synthetic page cursors already contain both query parameters, so cursor
normalization leaves them unmodified. -/
theorem cursor_norm (j : Nat) :
    normalize_next_page_url (cursor_name j) = cursor_name j := by
  have h1 : "limit=".data <:+: (cursor_name j).data :=
    infix_of_append_left (List.replicate j 'p') (by decide)
  have h2 : "nsfw=".data <:+: (cursor_name j).data :=
    infix_of_append_left (List.replicate j 'p') (by decide)
  simp only [normalize_next_page_url]
  rw [if_pos h1, if_pos h2]

/-- Synthetic page cursors are nonempty strings (the loop's falsy-cursor check
does not fire on them). -/
theorem cursor_ne_empty (j : Nat) : cursor_name j ≠ "" := by
  intro h
  have h2 := congrArg (fun s => s.data.length) h
  simp [cursor_name] at h2

/-- Fetching the cursor of an in-range page yields that page's document. -/
theorem page_fetch_lt (pages : List (List Entry)) (k : Nat) (hk : k < pages.length) :
    page_fetch pages (cursor_name k)
      = .doc ⟨some ⟨if k + 1 < pages.length then some (cursor_name (k + 1)) else none⟩,
          some (pages.getD k [])⟩ := by
  have hidx : (cursor_name k).data.length - 20 = k := by
    rw [cursor_len]
    omega
  rw [page_fetch]
  simp only [hidx]
  rw [if_pos ⟨by trivial, hk⟩]

/-- Fetching the cursor of an out-of-range page yields a non-document. -/
theorem page_fetch_ge (pages : List (List Entry)) (k : Nat) (hk : ¬ k < pages.length) :
    page_fetch pages (cursor_name k) = .pyNone := by
  have hidx : (cursor_name k).data.length - 20 = k := by
    rw [cursor_len]
    omega
  rw [page_fetch]
  simp only [hidx]
  rw [if_neg (fun hc => hk hc.2)]

/-- A crawl over the synthetic catalog starting at page `k` (with `m` pages
remaining and enough fuel) delivers exactly the remaining pages' item lists,
in page order, and terminates cleanly. -/
theorem crawl_page_fetch (pages : List (List Entry)) :
    ∀ (m k fuel : Nat), pages.length = k + m → m + 1 ≤ fuel →
      collect_assets_via_api (page_fetch pages) fuel (cursor_name k)
        = .ok ⟨pages.drop k, true⟩ := by
  intro m
  induction m with
  | zero =>
    intro k fuel hlen hfuel
    obtain ⟨f, rfl⟩ : ∃ f, fuel = f + 1 := ⟨fuel - 1, by omega⟩
    rw [collect_assets_via_api, page_fetch_ge pages k (by omega)]
    have hdrop : pages.drop k = [] := by
      rw [show k = pages.length from by omega]
      exact List.drop_length pages
    rw [hdrop]
  | succ m ih =>
    intro k fuel hlen hfuel
    obtain ⟨f, rfl⟩ : ∃ f, fuel = f + 1 := ⟨fuel - 1, by omega⟩
    have hk0 : k < pages.length := by omega
    have hfetch := page_fetch_lt pages k hk0
    have hgetD : pages.getD k [] = pages[k] := List.getD_eq_getElem pages [] hk0
    have hdrop : pages.drop k = pages[k] :: pages.drop (k + 1) :=
      List.drop_eq_getElem_cons hk0
    by_cases hk1 : k + 1 < pages.length
    · rw [if_pos hk1] at hfetch
      rw [collect_assets_via_api, hfetch]
      dsimp only
      rw [if_neg (cursor_ne_empty (k + 1)), cursor_norm (k + 1),
        ih (k + 1) f (by omega) (by omega)]
      dsimp only
      rw [hgetD, hdrop]
    · rw [if_neg hk1] at hfetch
      have hm : m = 0 := by omega
      rw [collect_assets_via_api, hfetch]
      dsimp only
      have hdrop1 : pages.drop (k + 1) = [] := by
        rw [show k + 1 = pages.length from by omega]
        exact List.drop_length pages
      rw [hgetD, hdrop, hdrop1]

/-- C10 (confirmed).  For every asset type and every finite sequence of
well-formed pages (served through `page_fetch`), with enough fuel for the
cursor chain: calling `scrape_available_asset_metadata` WITH a callback
returns the empty list, and calling it WITHOUT a callback returns the
concatenation of all pages' item lists in page order. -/
theorem c10_theorem (assetType : AssetType) (pages : List (List Entry)) (fuel : Nat)
    (hfuel : pages.length + 1 ≤ fuel) :
    scrape_available_asset_metadata (page_fetch pages) assetType true
        (some (cursor_name 0)) fuel = .ok [] ∧
      scrape_available_asset_metadata (page_fetch pages) assetType false
        (some (cursor_name 0)) fuel = .ok pages.flatten := by
  have hcrawl := crawl_page_fetch pages pages.length 0 fuel (by omega) (by omega)
  rw [List.drop_zero] at hcrawl
  constructor
  · rw [scrape_available_asset_metadata,
      show (some (cursor_name 0)).getD (default_list_url assetType)
        = cursor_name 0 from rfl, hcrawl]
    rfl
  · rw [scrape_available_asset_metadata,
      show (some (cursor_name 0)).getD (default_list_url assetType)
        = cursor_name 0 from rfl, hcrawl]
    rfl

/-- Witness for C10: a concrete two-page catalog — without a callback the
items of both pages come back concatenated in page order; with a callback the
returned list is empty. -/
theorem c10_witness :
    scrape_available_asset_metadata (page_fetch [[⟨some 1⟩], [⟨some 2⟩, ⟨some 3⟩]])
        .models false (some (cursor_name 0)) 3
      = .ok [⟨some 1⟩, ⟨some 2⟩, ⟨some 3⟩] ∧
      scrape_available_asset_metadata (page_fetch [[⟨some 1⟩], [⟨some 2⟩, ⟨some 3⟩]])
        .models true (some (cursor_name 0)) 3 = .ok [] := by
  have h := c10_theorem .models [[⟨some 1⟩], [⟨some 2⟩, ⟨some 3⟩]] 3 (by decide)
  exact ⟨by rw [h.2]; rfl, h.1⟩
